import Mathlib

/-!
Shallow embedding of `bottleneck/slow/func.py`: NaN-aware reductions
(`nanmean`, `nanvar`, `nanstd`, `nanmedian`) together with the local copies of
the scipy helpers (`scipy_nanmean`, `scipy_nanstd`, `scipy_nanmedian`,
`_nanmedian`, `_chk_asarray`).

Modelling choices:
* Floating-point values are embedded as `FP`: NaN, signed infinity, or an
  exact rational.  Arithmetic follows IEEE semantics for NaN and infinity
  propagation and for division by zero; finite arithmetic is exact (rounding
  is not modelled).
* numpy collaborator primitives (`np.isnan`, `np.sum`/`np.mean` along an
  axis, elementwise arithmetic, `np.sort`, `np.median`, `np.ravel`,
  `np.apply_along_axis`) are embedded by their documented semantics; an
  operation along axis `a` acts independently on every 1-D slice along `a`,
  so the embedding works per slice.
* `np.sqrt` on a finite value is exact whenever numerator and denominator of
  the (nonnegative) argument are perfect squares, and is some rational
  approximation otherwise; no theorem below evaluates it off perfect squares.
  NaN/negative/infinite arguments follow IEEE (`sqrt NaN = NaN`,
  `sqrt x = NaN` for `x < 0`, `sqrt (+inf) = +inf`).
-/

namespace BN

/-- Value of a floating-point cell: NaN, a signed infinity (`inf true` is
`+∞`), or an exact finite value. -/
inductive FP where
  | nan : FP
  | inf : Bool → FP
  | val : ℚ → FP
deriving DecidableEq, Repr

/-- Embeds `np.isnan` on one element. -/
def isnan : FP → Bool
  | .nan => true
  | _ => false

/-- Finite (non-NaN, non-infinite) test, used to state clean-slice lemmas. -/
def isVal : FP → Bool
  | .val _ => true
  | _ => false

/-- The finite value carried by a cell, if any. -/
def toQ : FP → Option ℚ
  | .val q => some q
  | _ => none

/-- IEEE negation. -/
def fneg : FP → FP
  | .nan => .nan
  | .inf b => .inf (!b)
  | .val q => .val (-q)

/-- IEEE addition: NaN absorbs, opposite infinities give NaN. -/
def fadd : FP → FP → FP
  | .nan, _ => .nan
  | .inf _, .nan => .nan
  | .val _, .nan => .nan
  | .inf a, .inf b => if a = b then .inf a else .nan
  | .inf a, .val _ => .inf a
  | .val _, .inf b => .inf b
  | .val a, .val b => .val (a + b)

/-- IEEE subtraction, as `x + (-y)`. -/
def fsub (x y : FP) : FP := fadd x (fneg y)

/-- IEEE multiplication: NaN absorbs, `0 * ∞ = NaN`, signs multiply. -/
def fmul : FP → FP → FP
  | .nan, _ => .nan
  | .inf _, .nan => .nan
  | .val _, .nan => .nan
  | .inf a, .inf b => .inf (a == b)
  | .inf a, .val q => if q = 0 then .nan else .inf (a == decide (0 < q))
  | .val q, .inf b => if q = 0 then .nan else .inf (b == decide (0 < q))
  | .val a, .val b => .val (a * b)

/-- IEEE division: NaN absorbs, `∞/∞ = NaN`, `x/0 = ±∞` for finite `x ≠ 0`,
`0/0 = NaN`, finite over infinite is `0` (the sign of zero is not tracked). -/
def fdiv : FP → FP → FP
  | .nan, _ => .nan
  | .inf _, .nan => .nan
  | .val _, .nan => .nan
  | .inf _, .inf _ => .nan
  | .inf a, .val q => if q = 0 then .inf a else .inf (a == decide (0 < q))
  | .val _, .inf _ => .val 0
  | .val a, .val b =>
      if b = 0 then (if a = 0 then .nan else .inf (decide (0 < a)))
      else .val (a / b)

/-- Rational square root used to embed `np.sqrt` on finite nonnegative
arguments: exact whenever numerator and denominator are perfect squares,
otherwise an (unused) approximation built from `Nat.sqrt`. -/
def ratSqrt (q : ℚ) : ℚ := (Nat.sqrt q.num.toNat : ℚ) / (Nat.sqrt q.den : ℚ)

/-- Embeds `np.sqrt`: IEEE on NaN, infinities and negatives; `ratSqrt` on
finite nonnegative values. -/
def fsqrt : FP → FP
  | .nan => .nan
  | .inf b => if b then .inf true else .nan
  | .val q => if q < 0 then .nan else .val (ratSqrt q)

/-- Embeds `** 2.0` (an even power, so it agrees with `x * x` on every input,
including `(-∞)**2.0 = +∞`). -/
def fpow2 (x : FP) : FP := fmul x x

/-- Embeds `np.sum` of a 1-D slice (exact rational addition, so summation
order cannot matter for finite values; NaN and mixed infinities absorb). -/
def fsum (l : List FP) : FP := l.foldl fadd (.val 0)

/-- One cell of the in-place update `x[np.isnan(x)] = 0`. -/
def zeroIfNan (x : FP) : FP := if isnan x then .val 0 else x

/-- Embeds `np.sum(np.isnan(x))` over a 1-D slice. -/
def countNan (s : List FP) : ℕ := (s.filter (fun v => isnan v)).length

/-- The non-NaN entries of a slice, in order (`np.compress(1 - np.isnan(x), x)`). -/
def validList (s : List FP) : List FP := s.filter (fun v => !isnan v)

/-- Total order used to embed `np.sort` on 1-D data: `-∞ <` finite values
(by `≤` on `ℚ`) `< +∞ <` NaN (numpy sorts NaN to the end). -/
def fleB : FP → FP → Bool
  | .nan, .nan => true
  | .nan, .inf _ => false
  | .nan, .val _ => false
  | _, .nan => true
  | .inf a, .inf b => !a || b
  | .inf a, .val _ => !a
  | .val _, .inf b => b
  | .val a, .val b => decide (a ≤ b)

/-- Propositional form of `fleB`, for `List.insertionSort`. -/
def fpLE (a b : FP) : Prop := fleB a b = true

instance : DecidableRel fpLE := fun a b => instDecidableEqBool (fleB a b) true

/-- Embeds `np.sort` on a 1-D slice. -/
def sortFP (l : List FP) : List FP := List.insertionSort fpLE l

/-- Embeds the numpy collaborator `np.median` on 1-D data: sort, then take the
middle element (odd length) or the mean of the two middle elements (even
length); the empty array yields NaN. -/
def npmedian (l : List FP) : FP :=
  let s := sortFP l
  let n := s.length
  if n % 2 = 1 then s.getD (n / 2) .nan
  else fdiv (fadd (s.getD (n / 2 - 1) .nan) (s.getD (n / 2) .nan)) (.val 2)

/-- Embeds `scipy_nanmean` (func.py lines 99-137) on one 1-D slice along the
reduction axis (`na` is `Norig = x.shape[axis]`; every slice along the axis
has length `na`).  Mirrors the source line by line:
`factor = 1.0 - np.sum(np.isnan(x), axis) * 1.0 / Norig`, the in-place
`x[np.isnan(x)] = 0` on the copy, and `np.mean(x, axis) / factor` where
`np.mean` is sum divided by `Norig`. -/
def scipy_nanmean_slice (na : ℕ) (s : List FP) : FP :=
  let factor := fsub (.val 1) (fdiv (fmul (.val (countNan s)) (.val 1)) (.val na))
  let z := s.map zeroIfNan
  fdiv (fdiv (fsum z) (.val na)) factor

/-- Embeds `scipy_nanstd` (func.py lines 139-198) on one 1-D slice along the
reduction axis.  `Nnan = np.sum(np.isnan(x), axis) * 1.0`; `n = Norig - Nnan`;
zero-fill the copy; `m1 = np.sum(x, axis) / n`;
`d = (x - m1)**2.0` (for axis 0 the reduced `m1` broadcasts, otherwise
`np.expand_dims(m1, axis)` is used — both subtract the slice's `m1` from
every element of the slice); `m2 = np.sum(d, axis) - (m1*m1)*Nnan`;
`m2c = m2 / n` if `bias` else `m2 / (n - 1.)`; result `np.sqrt(m2c)`. -/
def scipy_nanstd_slice (bias : Bool) (na : ℕ) (s : List FP) : FP :=
  let nnan : ℚ := (countNan s : ℚ) * 1
  let n : ℚ := (na : ℚ) - nnan
  let z := s.map zeroIfNan
  let m1 := fdiv (fsum z) (.val n)
  let d := z.map (fun xi => fpow2 (fsub xi m1))
  let m2 := fsub (fsum d) (fmul (fmul m1 m1) (.val nnan))
  let m2c := if bias then fdiv m2 (.val n) else fdiv m2 (fsub (.val n) (.val 1))
  fsqrt m2c

/-- Embeds `_nanmedian` (func.py lines 200-217), the per-slice worker of
`scipy_nanmedian`: `cond = 1 - np.isnan(arr1d)`;
`x = np.sort(np.compress(cond, arr1d))`; NaN if `x.size == 0`;
otherwise `np.median(x)`. -/
def nanmedian_slice (s : List FP) : FP :=
  let x := sortFP (validList s)
  if x.length = 0 then .nan
  else npmedian x

/-! ### N-dimensional arrays and reduction along an axis -/

/-- A dense numpy array: its shape and its elements in row-major (C) order.
The element dtype is tracked separately (see `DType` below); values are
dtype-independent in this exact-arithmetic model. -/
structure Arr where
  shape : List ℕ
  data : List FP
deriving DecidableEq, Repr

/-- Number of dimensions (`arr.ndim`). -/
def ndim (x : Arr) : ℕ := x.shape.length

/-- Product of the dimensions before the reduction axis. -/
def outerOf (shape : List ℕ) (a : ℕ) : ℕ := (shape.take a).prod

/-- Size of the reduction axis (`x.shape[axis]`). -/
def naOf (shape : List ℕ) (a : ℕ) : ℕ := shape.getD a 0

/-- Product of the dimensions after the reduction axis. -/
def innerOf (shape : List ℕ) (a : ℕ) : ℕ := (shape.drop (a + 1)).prod

/-- Shape of the result of reducing away axis `a`. -/
def reducedShape (shape : List ℕ) (a : ℕ) : List ℕ :=
  shape.take a ++ shape.drop (a + 1)

/-- The 1-D slice along the reduction axis at outer index `io` and inner
index `ii`: element `j` of the slice sits at flat index
`((io * na) + j) * inner + ii` in row-major order. -/
def sliceAlong (data : List FP) (na inner : ℕ) (io ii : ℕ) : List FP :=
  (List.range na).map (fun j => data.getD ((io * na + j) * inner + ii) .nan)

/-- All 1-D slices along the reduction axis, in the row-major order of the
reduced result array. -/
def slicesAlong (data : List FP) (outer na inner : ℕ) : List (List FP) :=
  (List.range outer).flatMap
    (fun io => (List.range inner).map (fun ii => sliceAlong data na inner io ii))

/-- The slices of `x` along (already nonnegative) axis `a`. -/
def slicesAt (x : Arr) (a : ℕ) : List (List FP) :=
  slicesAlong x.data (outerOf x.shape a) (naOf x.shape a) (innerOf x.shape a)

/-- Embeds `np.ravel` (flatten to 1-D; a view, so it shares storage). -/
def ravel (x : Arr) : Arr := ⟨[x.data.length], x.data⟩

/-- Embeds `_chk_asarray` (func.py lines 275-282): `axis=None` flattens the
array and selects axis 0, otherwise the array and axis pass through. -/
def chk_asarray (x : Arr) (axis : Option ℤ) : Arr × ℤ :=
  match axis with
  | none => (ravel x, 0)
  | some a => (x, a)

/-- numpy collaborator axis normalization: a negative axis counts from the
end (`axis + ndim`); in-range axes are returned unchanged. -/
def resolveNp (a : ℤ) (nd : ℕ) : ℕ := (if a < 0 then a + (nd : ℤ) else a).toNat

/-- Embeds `scipy_nanmean` (func.py lines 99-137) on a whole array: after
`_chk_asarray`, the mask/zero-fill/mean/divide pipeline acts independently on
every 1-D slice along the axis (see `scipy_nanmean_slice`). -/
def scipy_nanmean (x : Arr) (axis : Option ℤ) : Arr :=
  let p := chk_asarray x axis
  let a := resolveNp p.2 (ndim p.1)
  ⟨reducedShape p.1.shape a,
   (slicesAt p.1 a).map (scipy_nanmean_slice (naOf p.1.shape a))⟩

/-- Embeds `scipy_nanstd` (func.py lines 139-198) on a whole array (its
callers in this file always pass a concrete nonnegative axis). -/
def scipy_nanstd (x : Arr) (axis : Option ℤ) (bias : Bool) : Arr :=
  let p := chk_asarray x axis
  let a := resolveNp p.2 (ndim p.1)
  ⟨reducedShape p.1.shape a,
   (slicesAt p.1 a).map (scipy_nanstd_slice bias (naOf p.1.shape a))⟩

/-- Embeds `scipy_nanmedian` (func.py lines 219-273): after `_chk_asarray`,
a 0-dimensional input short-circuits to its own value (`float(x.item())`,
which changes only the Python type); otherwise
`np.apply_along_axis(_nanmedian, axis, x)` maps the per-slice worker over
every 1-D slice along the axis.  The trailing 0-d unwrap again changes only
the Python type of the scalar. -/
def scipy_nanmedian (x : Arr) (axis : Option ℤ) : Arr :=
  let p := chk_asarray x axis
  if ndim p.1 = 0 then p.1
  else
    let a := resolveNp p.2 (ndim p.1)
    ⟨reducedShape p.1.shape a, (slicesAt p.1 a).map nanmedian_slice⟩

/-! ### Top-level functions and their errors -/

/-- The two `ValueError`s raised by `nanstd` (and hence `nanvar`), carrying
what the format string interpolates: `"axis(=%d) out of bounds" % axis`
formats the axis variable *after* the `axis += arr.ndim` update, and the
ddof error carries its fixed message. -/
inductive BnError where
  | invalidAxis : ℤ → BnError
  | invalidDDoF : String → BnError
deriving DecidableEq, Repr

/-- The exact ddof error message in the source (func.py line 55). -/
def ddofMsg : String := "With NaNs ddof must be 0 or 1."

/-- Embeds `nanmean` (func.py lines 32-39).  The dtype cast
(`y.astype(arr.dtype)` for inexact inputs) changes only the result's dtype,
which is modelled separately by `nanmeanD`; values pass through. -/
def nanmean (arr : Arr) (axis : Option ℤ) : Arr :=
  scipy_nanmean arr axis

/-- Embeds `nanstd` (func.py lines 47-70): first the ddof check
(`ddof = 0` → `bias = True`, `ddof = 1` → `bias = False`, anything else
raises `ValueError("With NaNs ddof must be 0 or 1.")`); then, for a concrete
axis, `axis += arr.ndim` if negative and a bounds check raising
`ValueError("axis(=%d) out of bounds" % axis)` with the updated axis;
for `axis=None` the array is ravelled and axis 0 is used; finally
`scipy_nanstd` (dtype cast modelled by `nanstdD`). -/
def nanstd (arr : Arr) (axis : Option ℤ) (ddof : ℤ) : Except BnError Arr :=
  if ddof = 0 ∨ ddof = 1 then
    let bias := ddof == 0
    match axis with
    | some ax0 =>
        let ax := if ax0 < 0 then ax0 + (ndim arr : ℤ) else ax0
        if ax < 0 ∨ (ndim arr : ℤ) ≤ ax then .error (.invalidAxis ax)
        else .ok (scipy_nanstd arr (some ax) bias)
    | none => .ok (scipy_nanstd (ravel arr) (some 0) bias)
  else .error (.invalidDDoF ddofMsg)

/-- Embeds `nanvar` (func.py lines 41-45): `y = nanstd(arr, axis, ddof)`,
then `y * y` elementwise (so errors propagate from `nanstd`). -/
def nanvar (arr : Arr) (axis : Option ℤ) (ddof : ℤ) : Except BnError Arr :=
  (nanstd arr axis ddof).map (fun y => ⟨y.shape, y.data.map (fun v => fmul v v)⟩)

/-- Embeds `nanmedian` (func.py lines 16-30): `scipy_nanmedian` does the
work; the scalar/dtype fixups (`arr.dtype.type(y)`, `np.float64(y)`,
`y.astype(arr.dtype)`, `y[()]`) change only the result's dtype and Python
type, modelled separately by `nanmedianD`. -/
def nanmedian (arr : Arr) (axis : Option ℤ) : Arr :=
  scipy_nanmedian arr axis

/-! ### Result dtypes

The element values above are dtype-independent exact rationals; this block
models the *dtype* each function returns.  numpy collaborator facts used
(each is the documented type-promotion behaviour): summing/averaging a
non-inexact array produces `float64`; dividing by or subtracting a `float64`
scalar/array promotes real floats to `float64` and complex to `complex128`;
`np.median` preserves inexact dtypes and produces `float64` otherwise. -/

/-- The element dtypes distinguished by the source's `np.inexact` branches. -/
inductive DType where
  | bool | int64 | float16 | float32 | float64 | complex64 | complex128
deriving DecidableEq, Repr

/-- Embeds `issubclass(arr.dtype.type, np.inexact)`. -/
def isInexact : DType → Bool
  | .float16 => true
  | .float32 => true
  | .float64 => true
  | .complex64 => true
  | .complex128 => true
  | _ => false

/-- numpy promotion of a dtype with `float64` (the dtype of `factor`, `n`,
`m1` …): complex stays complex (at double precision), everything else
becomes `float64`. -/
def promoteF64 : DType → DType
  | .complex64 => .complex128
  | .complex128 => .complex128
  | _ => .float64

/-- dtype of the raw `scipy_nanmean` / `scipy_nanstd` result: the pipeline
divides by (or subtracts) `float64` intermediates, so the input dtype is
promoted with `float64`; non-inexact inputs come out `float64`. -/
def scipyRawD (d : DType) : DType := promoteF64 d

/-- dtype of the raw `scipy_nanmedian` array result: `np.median` preserves
inexact dtypes and yields `float64` for the rest. -/
def medianRawD (d : DType) : DType := if isInexact d then d else .float64

/-- Embeds the cast block shared by `nanmean`, `nanstd` and `nanmedian`:
`if y.dtype != arr.dtype: if issubclass(arr.dtype.type, np.inexact):
y = y.astype(arr.dtype)`. -/
def castBlock (yd d : DType) : DType :=
  if yd ≠ d ∧ isInexact d = true then d else yd

/-- Result dtype of `nanmean`. -/
def nanmeanD (d : DType) : DType := castBlock (scipyRawD d) d

/-- Result dtype of `nanstd`. -/
def nanstdD (d : DType) : DType := castBlock (scipyRawD d) d

/-- Result dtype of `nanvar`: `y * y` squares the already-cast `nanstd`
result, which preserves its dtype. -/
def nanvarD (d : DType) : DType := nanstdD d

/-- Result dtype of `nanmedian`.  `scalarResult` is true when
`scipy_nanmedian` returned a bare Python float (0-d case), in which case
`not hasattr(y, "dtype")` holds and the source wraps it as
`arr.dtype.type(y)` (inexact input) or `np.float64(y)`; the array case
carries `medianRawD`.  Either way the shared cast block runs afterwards. -/
def nanmedianD (d : DType) (scalarResult : Bool) : DType :=
  let yd := if scalarResult then (if isInexact d then d else .float64)
            else medianRawD d
  castBlock yd d

/-! ### Buffer-effect model

A tiny heap of flat buffers, to state that the engine never writes the
caller's storage: `x = x.copy()` allocates, `x[np.isnan(x)] = 0` writes the
copy in place, `np.ravel` of a contiguous array is a view (same buffer).
The stateful wrappers below mirror the allocation/write sequence of each
source function and return the value computed by the pure embedding. -/

/-- The heap: buffer `i` holds `cells[i]`. -/
abbrev Heap := List (List FP)

/-- Read buffer `i`. -/
def readH (h : Heap) (i : ℕ) : List FP := h.getD i []

/-- Allocate a fresh buffer holding `v` (`x.copy()` and friends). -/
def allocH (h : Heap) (v : List FP) : Heap × ℕ := (h ++ [v], h.length)

/-- Overwrite buffer `i` (in-place fancy assignment). -/
def writeH (h : Heap) (i : ℕ) (v : List FP) : Heap := h.set i v

/-- Heap-level `scipy_nanmean` (lines 131-137): copy the (possibly ravelled —
a view, same buffer) input, zero-fill the copy in place, return the value of
the pure embedding. -/
def scipy_nanmean_st (h : Heap) (xid : ℕ) (shape : List ℕ) (axis : Option ℤ) :
    Heap × Arr :=
  let arr : Arr := ⟨shape, readH h xid⟩
  let p := chk_asarray arr axis
  let ac := allocH h p.1.data
  let h2 := writeH ac.1 ac.2 ((readH ac.1 ac.2).map zeroIfNan)
  (h2, scipy_nanmean arr axis)

/-- Heap-level `nanmean` (lines 32-39): delegates to `scipy_nanmean`. -/
def nanmean_st (h : Heap) (xid : ℕ) (shape : List ℕ) (axis : Option ℤ) :
    Heap × Arr :=
  scipy_nanmean_st h xid shape axis

/-- Heap-level `nanstd` (lines 47-70): both `ValueError`s fire before
`scipy_nanstd` runs, so on error the heap is untouched; otherwise
`scipy_nanstd` (lines 178-185) copies the input and zero-fills the copy. -/
def nanstd_st (h : Heap) (xid : ℕ) (shape : List ℕ) (axis : Option ℤ)
    (ddof : ℤ) : Heap × Except BnError Arr :=
  let arr : Arr := ⟨shape, readH h xid⟩
  if ddof = 0 ∨ ddof = 1 then
    let bias := ddof == 0
    match axis with
    | some ax0 =>
        let ax := if ax0 < 0 then ax0 + (ndim arr : ℤ) else ax0
        if ax < 0 ∨ (ndim arr : ℤ) ≤ ax then (h, .error (.invalidAxis ax))
        else
          let ac := allocH h arr.data
          let h2 := writeH ac.1 ac.2 ((readH ac.1 ac.2).map zeroIfNan)
          (h2, .ok (scipy_nanstd arr (some ax) bias))
    | none =>
        let ac := allocH h (ravel arr).data
        let h2 := writeH ac.1 ac.2 ((readH ac.1 ac.2).map zeroIfNan)
        (h2, .ok (scipy_nanstd (ravel arr) (some 0) bias))
  else (h, .error (.invalidDDoF ddofMsg))

/-- Heap-level `nanvar` (lines 41-45): run `nanstd`, square the result. -/
def nanvar_st (h : Heap) (xid : ℕ) (shape : List ℕ) (axis : Option ℤ)
    (ddof : ℤ) : Heap × Except BnError Arr :=
  let p := nanstd_st h xid shape axis ddof
  (p.1, p.2.map (fun y => ⟨y.shape, y.data.map (fun v => fmul v v)⟩))

/-- Heap-level `nanmedian` (lines 16-30, 266-273): the 0-d case returns
before the copy; otherwise `x = x.copy()` allocates and
`np.apply_along_axis` (with `np.compress`/`np.sort` inside `_nanmedian`)
only allocates fresh buffers — nothing is written in place. -/
def nanmedian_st (h : Heap) (xid : ℕ) (shape : List ℕ) (axis : Option ℤ) :
    Heap × Arr :=
  let arr : Arr := ⟨shape, readH h xid⟩
  let p := chk_asarray arr axis
  if ndim p.1 = 0 then (h, p.1)
  else
    let ac := allocH h p.1.data
    (ac.1, nanmedian arr axis)

/-! ### Spec-side definitions

These follow the specification's words (not the source), for the refinement
claims that compare the code against them. -/

/-- Spec wording for the per-slice nanmean: "sum of non-NaN values divided by
count of non-NaN values". -/
def spec_nanmean_slice (s : List FP) : FP :=
  fdiv (fsum (validList s)) (.val ((validList s).length))

/-- Spec wording for the per-slice nanmedian: "filter out NaN entries, sort
the remaining values, and compute the standard median (average of the two
middle elements for even count, the single middle element for odd count) …;
if no non-NaN values remain, the slice's median is NaN". -/
def spec_nanmedian_slice (s : List FP) : FP :=
  let v := validList s
  if v = [] then .nan
  else
    let w := sortFP v
    if w.length % 2 = 1 then w.getD (w.length / 2) .nan
    else fdiv (fadd (w.getD (w.length / 2 - 1) .nan) (w.getD (w.length / 2) .nan))
           (.val 2)

/-- Exact sum of a list of rationals. -/
def sumQ (l : List ℚ) : ℚ := l.foldl (· + ·) 0

/-- The finite values of a slice, in order. -/
def qvals (s : List FP) : List ℚ := s.filterMap toQ

/-- Spec-side arithmetic mean of the finite values of a slice. -/
def specMean (s : List FP) : ℚ := sumQ (qvals s) / ((qvals s).length : ℚ)

/-- Spec-side sum of squared deviations of the finite values of a slice from
their mean. -/
def specDevSum (s : List FP) : ℚ :=
  sumQ ((qvals s).map (fun q => (q - specMean s) * (q - specMean s)))

instance : IsTotal FP fpLE where
  total a b := by
    cases a with
    | nan => cases b with
      | nan => left; rfl
      | inf y => right; rfl
      | val q => right; rfl
    | inf x => cases b with
      | nan => left; rfl
      | inf y => cases x <;> cases y <;> simp [fpLE, fleB]
      | val q => cases x <;> simp [fpLE, fleB]
    | val q => cases b with
      | nan => left; rfl
      | inf y => cases y <;> simp [fpLE, fleB]
      | val r => simp only [fpLE, fleB, decide_eq_true_eq]; exact le_total q r

instance : IsTrans FP fpLE where
  trans a b c hab hbc := by
    cases a with
    | nan =>
        cases b with
        | nan => exact hbc
        | inf y => exact absurd hab (by simp [fpLE, fleB])
        | val q => exact absurd hab (by simp [fpLE, fleB])
    | inf x =>
        cases b with
        | nan =>
            cases c with
            | nan => simp [fpLE, fleB]
            | inf z => exact absurd hbc (by simp [fpLE, fleB])
            | val q => exact absurd hbc (by simp [fpLE, fleB])
        | inf y =>
            cases c with
            | nan => simp [fpLE, fleB]
            | inf z => revert hab hbc; cases x <;> cases y <;> cases z <;> decide
            | val q => revert hab hbc; cases x <;> cases y <;> simp_all [fpLE, fleB]
        | val q =>
            cases c with
            | nan => simp [fpLE, fleB]
            | inf z => revert hab hbc; cases x <;> cases z <;> simp_all [fpLE, fleB]
            | val r => revert hab hbc; cases x <;> simp_all [fpLE, fleB]
    | val q =>
        cases b with
        | nan =>
            cases c with
            | nan => simp [fpLE, fleB]
            | inf z => exact absurd hbc (by simp [fpLE, fleB])
            | val r => exact absurd hbc (by simp [fpLE, fleB])
        | inf y =>
            cases c with
            | nan => simp [fpLE, fleB]
            | inf z => revert hab hbc; cases y <;> cases z <;> simp_all [fpLE, fleB]
            | val r => revert hab hbc; cases y <;> simp_all [fpLE, fleB]
        | val r =>
            cases c with
            | nan => simp [fpLE, fleB]
            | inf z => revert hab hbc; cases z <;> simp_all [fpLE, fleB]
            | val t =>
                simp only [fpLE, fleB, decide_eq_true_eq] at hab hbc ⊢
                exact le_trans hab hbc

/-! ### Helper lemmas -/

theorem fadd_val_zero (x : FP) : fadd x (.val 0) = x := by
  cases x <;> simp [fadd]

theorem fadd_nan (x : FP) : fadd x .nan = .nan := by
  cases x <;> rfl

theorem fsub_nan (x : FP) : fsub x .nan = .nan := by
  cases x <;> rfl

theorem foldl_fadd_zeroIfNan (s : List FP) :
    ∀ acc : FP, (s.map zeroIfNan).foldl fadd acc = (validList s).foldl fadd acc := by
  induction s with
  | nil => intro _; rfl
  | cons v t ih =>
      intro acc
      cases hv : isnan v
      · have hz : zeroIfNan v = v := by simp [zeroIfNan, hv]
        have hval : validList (v :: t) = v :: validList t := by
          simp [validList, List.filter_cons, hv]
        simp only [List.map_cons, List.foldl_cons, hz, hval]
        exact ih (fadd acc v)
      · have hz : zeroIfNan v = .val 0 := by simp [zeroIfNan, hv]
        have hval : validList (v :: t) = validList t := by
          simp [validList, List.filter_cons, hv]
        simp only [List.map_cons, List.foldl_cons, hz, hval, fadd_val_zero]
        exact ih acc

theorem fsum_map_zeroIfNan (s : List FP) :
    fsum (s.map zeroIfNan) = fsum (validList s) :=
  foldl_fadd_zeroIfNan s _

theorem countNan_add_valid (s : List FP) :
    countNan s + (validList s).length = s.length := by
  induction s with
  | nil => rfl
  | cons v t ih =>
      cases hv : isnan v <;>
        simp [countNan, validList, List.filter_cons, hv] at * <;> omega

theorem nanmean_slice_eq (s : List FP) :
    scipy_nanmean_slice s.length s = spec_nanmean_slice s := by
  have hpart := countNan_add_valid s
  rcases Nat.eq_zero_or_pos s.length with h0 | hpos
  · have hs : s = [] := List.length_eq_zero.mp h0
    subst hs; rfl
  · have e0 : scipy_nanmean_slice s.length s
        = fdiv (fdiv (fsum (s.map zeroIfNan)) (.val (s.length : ℚ)))
            (fsub (.val 1)
              (fdiv (fmul (.val (countNan s : ℚ)) (.val 1)) (.val (s.length : ℚ)))) := rfl
    have hN0 : ((s.length : ℚ)) ≠ 0 := by positivity
    have hmul : fmul (FP.val (countNan s : ℚ)) (.val 1) = FP.val (countNan s : ℚ) := by
      simp [fmul]
    have hfac : fsub (FP.val 1)
        (fdiv (FP.val (countNan s : ℚ)) (.val (s.length : ℚ)))
        = FP.val (((validList s).length : ℚ) / (s.length : ℚ)) := by
      simp only [fdiv, if_neg hN0, fsub, fneg, fadd]
      congr 1
      have : (countNan s : ℚ) = (s.length : ℚ) - ((validList s).length : ℚ) := by
        have := hpart; push_cast [← this]; ring
      rw [this]; field_simp
    rw [e0, hmul, hfac, fsum_map_zeroIfNan]
    rcases Nat.eq_zero_or_pos (validList s).length with hk0 | hkpos
    · have hv : validList s = [] := List.length_eq_zero.mp hk0
      unfold spec_nanmean_slice
      rw [hv]
      have hz : fsum ([] : List FP) = .val 0 := rfl
      rw [hz]
      simp [fdiv, hN0]
    · have hk0 : (((validList s).length : ℚ)) ≠ 0 := by positivity
      have hkposQ : (0 : ℚ) < ((validList s).length : ℚ) := by positivity
      have hNposQ : (0 : ℚ) < ((s.length : ℚ)) := by positivity
      have hF0 : (((validList s).length : ℚ) / (s.length : ℚ)) ≠ 0 := by positivity
      have hFpos : (0:ℚ) < ((validList s).length : ℚ) / (s.length : ℚ) := by positivity
      unfold spec_nanmean_slice
      cases hS : fsum (validList s) with
      | nan => simp [fdiv]
      | inf b =>
          simp only [fdiv, if_neg hN0, if_neg hk0, if_neg hF0]
          simp [decide_eq_true_eq, hkposQ, hNposQ, hFpos]
      | val q =>
          simp only [fdiv, if_neg hN0, if_neg hk0, if_neg hF0]
          congr 1
          field_simp

theorem sortFP_idem (l : List FP) : sortFP (sortFP l) = sortFP l :=
  (List.sorted_insertionSort fpLE l).insertionSort_eq

theorem nanmedian_slice_eq (s : List FP) :
    nanmedian_slice s = spec_nanmedian_slice s := by
  unfold nanmedian_slice spec_nanmedian_slice npmedian
  by_cases hv : validList s = []
  · rw [hv]; rfl
  · have hlen : (sortFP (validList s)).length = (validList s).length :=
      List.length_insertionSort _ _
    have hne : ¬ (sortFP (validList s)).length = 0 := by
      rw [hlen]
      simpa [List.length_eq_zero] using hv
    rw [if_neg hne, if_neg hv]
    simp only [sortFP_idem, hlen]

theorem fsum_map_val (l : List ℚ) : fsum (l.map FP.val) = .val (sumQ l) := by
  unfold fsum sumQ
  suffices h : ∀ a : ℚ, (l.map FP.val).foldl fadd (.val a) = .val (l.foldl (· + ·) a) from
    h 0
  induction l with
  | nil => intro _; rfl
  | cons q t ih =>
      intro a
      simp only [List.map_cons, List.foldl_cons, fadd]
      exact ih (a + q)

theorem qvals_map_val (l : List ℚ) : qvals (l.map FP.val) = l := by
  unfold qvals
  rw [List.filterMap_map]
  exact List.filterMap_some l

theorem countNan_map_val (l : List ℚ) : countNan (l.map FP.val) = 0 := by
  unfold countNan
  rw [List.filter_map]
  have hp : ((fun v => isnan v) ∘ FP.val) = (fun _ : ℚ => false) := by
    funext q; rfl
  simp [hp]

theorem validList_map_val (l : List ℚ) : validList (l.map FP.val) = l.map FP.val := by
  unfold validList
  rw [List.filter_map]
  have hp : ((fun v => !isnan v) ∘ FP.val) = (fun _ : ℚ => true) := by
    funext q; rfl
  simp [hp]

theorem map_zeroIfNan_map_val (l : List ℚ) :
    (l.map FP.val).map zeroIfNan = l.map FP.val := by
  rw [List.map_map]
  rfl

theorem eq_map_val_of_all_isVal {s : List FP} (h : s.all isVal = true) :
    s = (qvals s).map FP.val := by
  induction s with
  | nil => rfl
  | cons v t ih =>
      rw [List.all_cons, Bool.and_eq_true] at h
      cases v with
      | nan => exact absurd h.1 (by simp [isVal])
      | inf b => exact absurd h.1 (by simp [isVal])
      | val q =>
          have := ih h.2
          simp only [qvals, List.filterMap_cons, toQ, List.map_cons]
          exact congrArg (FP.val q :: ·) this

theorem nanstd_slice_val (bias : Bool) (l : List ℚ) (hne : l ≠ []) :
    scipy_nanstd_slice bias (l.map FP.val).length (l.map FP.val)
      = (if bias
         then fsqrt (fdiv (.val (specDevSum (l.map FP.val))) (.val (l.length : ℚ)))
         else fsqrt (fdiv (.val (specDevSum (l.map FP.val)))
                (fsub (.val (l.length : ℚ)) (.val 1)))) := by
  have hn0 : ((l.length : ℚ)) ≠ 0 := by
    have : l.length ≠ 0 := by simpa [List.length_eq_zero] using hne
    exact_mod_cast this
  have hmean : fdiv (FP.val (sumQ l)) (.val (l.length : ℚ))
      = FP.val (specMean (l.map FP.val)) := by
    simp [fdiv, hn0, specMean, qvals_map_val]
  have hdev : ∀ q : ℚ,
      fpow2 (fsub (FP.val q) (FP.val (specMean (l.map FP.val))))
        = FP.val ((q - specMean (l.map FP.val)) * (q - specMean (l.map FP.val))) := by
    intro q
    simp [fpow2, fsub, fadd, fneg, fmul, sub_eq_add_neg]
  have hz : ∀ q : ℚ, zeroIfNan (FP.val q) = FP.val q := fun _ => rfl
  simp only [scipy_nanstd_slice, countNan_map_val, List.map_map,
    Function.comp_def, hz, fsum_map_val, List.length_map, Nat.cast_zero,
    zero_mul, mul_one, sub_zero, hmean, hdev]
  have hd : l.map (fun q =>
        FP.val ((q - specMean (l.map FP.val)) * (q - specMean (l.map FP.val))))
      = (l.map (fun q =>
          (q - specMean (l.map FP.val)) * (q - specMean (l.map FP.val)))).map FP.val := by
    rw [List.map_map]
    rfl
  rw [hd, fsum_map_val]
  have hss : sumQ (l.map (fun q =>
      (q - specMean (l.map FP.val)) * (q - specMean (l.map FP.val))))
      = specDevSum (l.map FP.val) := by
    rw [specDevSum, qvals_map_val]
  rw [hss]
  have hmm : fmul (fmul (FP.val (specMean (l.map FP.val))) (FP.val (specMean (l.map FP.val))))
      (FP.val 0) = FP.val 0 := by
    simp [fmul]
  rw [hmm]
  have hm2 : fsub (FP.val (specDevSum (l.map FP.val))) (FP.val 0)
      = FP.val (specDevSum (l.map FP.val)) := by
    simp [fsub, fneg, fadd]
  rw [hm2]
  cases bias <;> rfl

theorem length_sliceAlong (data : List FP) (na inner io ii : ℕ) :
    (sliceAlong data na inner io ii).length = na := by
  simp [sliceAlong]

theorem length_of_mem_slicesAlong {data : List FP} {o na i : ℕ} {s : List FP}
    (h : s ∈ slicesAlong data o na i) : s.length = na := by
  simp only [slicesAlong, List.mem_flatMap, List.mem_map, List.mem_range] at h
  obtain ⟨io, -, ii, -, rfl⟩ := h
  exact length_sliceAlong data na i io ii

theorem map_getD_range (l : List FP) :
    (List.range l.length).map (fun j => l.getD j .nan) = l := by
  apply List.ext_getElem
  · simp
  · intro n h1 h2
    simp [List.getD_eq_getElem?_getD, List.getElem?_eq_getElem h2]

theorem sliceAlong_self (l : List FP) : sliceAlong l l.length 1 0 0 = l := by
  simp only [sliceAlong, Nat.zero_mul, Nat.zero_add, Nat.mul_one, Nat.add_zero]
  exact map_getD_range l

theorem slicesAlong_whole (l : List FP) : slicesAlong l 1 l.length 1 = [l] := by
  have h1 : List.range 1 = [0] := rfl
  simp only [slicesAlong, h1, List.flatMap_cons, List.flatMap_nil, List.map_cons,
    List.map_nil, List.append_nil]
  rw [sliceAlong_self]

theorem slicesAt_flat (s : List FP) : slicesAt ⟨[s.length], s⟩ 0 = [s] := by
  simp only [slicesAt, outerOf, naOf, innerOf]
  simpa using slicesAlong_whole s

theorem validList_all_nan {s : List FP} (h : s.all isnan = true) :
    validList s = [] := by
  unfold validList
  rw [List.filter_eq_nil_iff]
  intro a ha
  have := List.all_eq_true.mp h a ha
  simp [this]

theorem countNan_all_nan {s : List FP} (h : s.all isnan = true) :
    countNan s = s.length := by
  have := countNan_add_valid s
  rw [validList_all_nan h] at this
  simpa using this

theorem nanmean_slice_all_nan {s : List FP} (h : s.all isnan = true) :
    scipy_nanmean_slice s.length s = .nan := by
  rw [nanmean_slice_eq]
  unfold spec_nanmean_slice
  rw [validList_all_nan h]
  rfl

theorem nanstd_slice_all_nan {s : List FP} (b : Bool) (h : s.all isnan = true) :
    scipy_nanstd_slice b s.length s = .nan := by
  have hm1 : fdiv (fsum (s.map zeroIfNan))
      (FP.val ((s.length : ℚ) - (countNan s : ℚ) * 1)) = FP.nan := by
    rw [fsum_map_zeroIfNan, validList_all_nan h, countNan_all_nan h]
    have : ((s.length : ℚ)) - (s.length : ℚ) * 1 = 0 := by ring
    rw [this]
    rfl
  simp only [scipy_nanstd_slice, hm1]
  have hnn : fmul (fmul FP.nan FP.nan) (FP.val ((countNan s : ℚ) * 1)) = FP.nan := rfl
  rw [hnn, fsub_nan]
  cases b <;> rfl

theorem nanmedian_slice_all_nan {s : List FP} (h : s.all isnan = true) :
    nanmedian_slice s = .nan := by
  unfold nanmedian_slice
  rw [validList_all_nan h]
  rfl

theorem readH_alloc {h : Heap} {v : List FP} {xid : ℕ} (hx : xid < h.length) :
    readH (h ++ [v]) xid = readH h xid := by
  simp [readH, List.getD_eq_getElem?_getD, List.getElem?_append, hx]

theorem readH_alloc_write {h : Heap} {v w : List FP} {xid : ℕ}
    (hx : xid < h.length) :
    readH ((h ++ [v]).set h.length w) xid = readH h xid := by
  have hne : h.length ≠ xid := (Nat.ne_of_lt hx).symm
  simp [readH, List.getD_eq_getElem?_getD, List.getElem?_set_ne hne,
    List.getElem?_append, hx]

theorem nanmean_flat (s : List FP) :
    nanmean ⟨[s.length], s⟩ none = ⟨[], [scipy_nanmean_slice s.length s]⟩ := by
  show (⟨reducedShape [s.length] 0,
      (slicesAt ⟨[s.length], s⟩ 0).map (scipy_nanmean_slice s.length)⟩ : Arr) = _
  rw [slicesAt_flat]
  rfl

theorem nanmedian_flat (s : List FP) :
    nanmedian ⟨[s.length], s⟩ none = ⟨[], [nanmedian_slice s]⟩ := by
  show (⟨reducedShape [s.length] 0,
      (slicesAt ⟨[s.length], s⟩ 0).map nanmedian_slice⟩ : Arr) = _
  rw [slicesAt_flat]
  rfl

theorem scipy_nanstd_flat (s : List FP) (b : Bool) :
    scipy_nanstd ⟨[s.length], s⟩ (some 0) b
      = ⟨[], [scipy_nanstd_slice b s.length s]⟩ := by
  show (⟨reducedShape [s.length] 0,
      (slicesAt ⟨[s.length], s⟩ 0).map (scipy_nanstd_slice b s.length)⟩ : Arr) = _
  rw [slicesAt_flat]
  rfl

theorem nanstd_flat (s : List FP) :
    nanstd ⟨[s.length], s⟩ none 0
      = .ok ⟨[], [scipy_nanstd_slice true s.length s]⟩ := by
  show Except.ok (scipy_nanstd (ravel ⟨[s.length], s⟩) (some 0) true) = _
  show Except.ok (scipy_nanstd ⟨[s.length], s⟩ (some 0) true) = _
  rw [scipy_nanstd_flat]

theorem nanmedian_whole (x : Arr) :
    nanmedian x none = ⟨[], [nanmedian_slice x.data]⟩ := by
  show (⟨reducedShape [x.data.length] 0,
      (slicesAt ⟨[x.data.length], x.data⟩ 0).map nanmedian_slice⟩ : Arr) = _
  rw [slicesAt_flat]
  rfl

theorem nanstd_some_eq (arr : Arr) (ax ddof : ℤ) (hd : ddof = 0 ∨ ddof = 1) :
    nanstd arr (some ax) ddof
      = (if (if ax < 0 then ax + (ndim arr : ℤ) else ax) < 0 ∨
           (ndim arr : ℤ) ≤ (if ax < 0 then ax + (ndim arr : ℤ) else ax)
         then .error (.invalidAxis (if ax < 0 then ax + (ndim arr : ℤ) else ax))
         else .ok (scipy_nanstd arr
             (some (if ax < 0 then ax + (ndim arr : ℤ) else ax)) (ddof == 0))) := by
  unfold nanstd
  rw [if_pos hd]

/-! ### The claims -/

/-- C1: for every array `x` and axis argument, `nanmean` produces, for each
1-D slice along the resolved axis, the sum of the slice's non-NaN entries
divided by the count of its non-NaN entries (the zero-fill / ordinary-mean /
divide-by-validFraction pipeline is exactly that); in particular the row
`[0, 1, 2, NaN, 4, 5]` has nanmean `12/5 = 2.4`. -/
theorem claim_C1 :
    (∀ (x : Arr) (axis : Option ℤ),
      (nanmean x axis).data
        = (slicesAt (chk_asarray x axis).1
            (resolveNp (chk_asarray x axis).2 (ndim (chk_asarray x axis).1))).map
            spec_nanmean_slice)
    ∧ nanmean ⟨[6], [.val 0, .val 1, .val 2, .nan, .val 4, .val 5]⟩ none
        = ⟨[], [.val (12/5)]⟩ := by
  constructor
  · intro x axis
    show (slicesAt (chk_asarray x axis).1
        (resolveNp (chk_asarray x axis).2 (ndim (chk_asarray x axis).1))).map
        (scipy_nanmean_slice (naOf (chk_asarray x axis).1.shape
          (resolveNp (chk_asarray x axis).2 (ndim (chk_asarray x axis).1)))) = _
    apply List.map_congr_left
    intro s hs
    have hlen := length_of_mem_slicesAlong hs
    rw [← hlen]
    exact nanmean_slice_eq s
  · have h2 : scipy_nanmean_slice
        ([FP.val 0, FP.val 1, FP.val 2, FP.nan, FP.val 4, FP.val 5].length)
        [FP.val 0, FP.val 1, FP.val 2, FP.nan, FP.val 4, FP.val 5]
        = FP.val (12 / 5) := by
      norm_num [scipy_nanmean_slice, countNan, fsum, fdiv, fmul, fsub, fadd,
        fneg, zeroIfNan, isnan]
    have h := nanmean_flat [FP.val 0, FP.val 1, FP.val 2, FP.nan, FP.val 4, FP.val 5]
    rw [h2] at h
    exact h

/-- C2: `nanmedian` applies to each 1-D slice along the axis independently
the spec's per-slice rule: drop NaNs, sort, middle element (odd count) or
average of the two middle elements (even count), NaN for an all-NaN slice;
the examples `[0, 3, 1, 5, 5, NaN]` and `[0, 3, 1, 5, 5, NaN, 5]` give
`3.0` and `4.0`. -/
theorem claim_C2 :
    (∀ s : List FP, nanmedian_slice s = spec_nanmedian_slice s)
    ∧ (∀ (x : Arr) (a : ℤ), x.shape ≠ [] →
        nanmedian x (some a)
          = ⟨reducedShape x.shape (resolveNp a (ndim x)),
             (slicesAt x (resolveNp a (ndim x))).map spec_nanmedian_slice⟩)
    ∧ nanmedian ⟨[6], [.val 0, .val 3, .val 1, .val 5, .val 5, .nan]⟩ none
        = ⟨[], [.val 3]⟩
    ∧ nanmedian ⟨[7], [.val 0, .val 3, .val 1, .val 5, .val 5, .nan, .val 5]⟩ none
        = ⟨[], [.val 4]⟩ := by
  refine ⟨nanmedian_slice_eq, ?ga, ?gb, ?gc⟩
  case ga =>
    intro x a hsh
    have hnd : ¬ (ndim x = 0) := by simpa [ndim, List.length_eq_zero] using hsh
    have e0 : nanmedian x (some a)
        = if ndim x = 0 then x else
            ⟨reducedShape x.shape (resolveNp a (ndim x)),
             (slicesAt x (resolveNp a (ndim x))).map nanmedian_slice⟩ := rfl
    rw [e0, if_neg hnd]
    congr 1
    apply List.map_congr_left
    intro s _
    exact nanmedian_slice_eq s
  case gb =>
    have h2 : nanmedian_slice [FP.val 0, FP.val 3, FP.val 1, FP.val 5, FP.val 5, FP.nan]
        = FP.val 3 := by
      norm_num [nanmedian_slice, npmedian, sortFP, validList, isnan, fpLE, fleB,
        fdiv, fadd, List.filter]
    have h := nanmedian_flat [FP.val 0, FP.val 3, FP.val 1, FP.val 5, FP.val 5, FP.nan]
    rw [h2] at h
    exact h
  case gc =>
    have h2 : nanmedian_slice
        [FP.val 0, FP.val 3, FP.val 1, FP.val 5, FP.val 5, FP.nan, FP.val 5]
        = FP.val 4 := by
      norm_num [nanmedian_slice, npmedian, sortFP, validList, isnan, fpLE, fleB,
        fdiv, fadd, List.filter]
    have h := nanmedian_flat
      [FP.val 0, FP.val 3, FP.val 1, FP.val 5, FP.val 5, FP.nan, FP.val 5]
    rw [h2] at h
    exact h

/-- C2 witness: the general slice rule and the axis form evaluated at the
first example row. -/
theorem claim_C2_witness :
    nanmedian ⟨[6], [.val 0, .val 3, .val 1, .val 5, .val 5, .nan]⟩ (some 0)
      = ⟨[], (slicesAt ⟨[6], [.val 0, .val 3, .val 1, .val 5, .val 5, .nan]⟩ 0).map
          spec_nanmedian_slice⟩ := by
  have h := claim_C2.2.1 ⟨[6], [.val 0, .val 3, .val 1, .val 5, .val 5, .nan]⟩ 0
    (by decide)
  exact h

/-- C3: `nanvar` is obtained by squaring the `nanstd` result elementwise
(`y = nanstd(...); return y * y`), so whenever `nanstd` succeeds with `y`,
`nanvar` succeeds with exactly `y * y`, slice for slice. -/
theorem claim_C3 (arr : Arr) (axis : Option ℤ) (ddof : ℤ) (y : Arr)
    (h : nanstd arr axis ddof = .ok y) :
    nanvar arr axis ddof = .ok ⟨y.shape, y.data.map (fun v => fmul v v)⟩ := by
  unfold nanvar
  rw [h]
  rfl

/-- C3 witness: on `[1, 3]` with `ddof = 0`, `nanstd` is `1` and `nanvar` is
its square. -/
theorem claim_C3_witness :
    nanvar ⟨[2], [.val 1, .val 3]⟩ none 0
      = .ok ⟨[], [FP.val 1].map (fun v => fmul v v)⟩ :=
  claim_C3 ⟨[2], [.val 1, .val 3]⟩ none 0 ⟨[], [.val 1]⟩ (by
    have h2 : scipy_nanstd_slice true ([FP.val 1, FP.val 3].length)
        [FP.val 1, FP.val 3] = FP.val 1 := by
      norm_num [scipy_nanstd_slice, countNan, fsum, fdiv, fmul, fsub, fadd,
        fneg, fpow2, fsqrt, ratSqrt, zeroIfNan, isnan, List.filter]
    have h := nanstd_flat [FP.val 1, FP.val 3]
    rw [h2] at h
    exact h)

/-- C4 counterexample: the claim says the `InvalidAxis` error carries the
*original* axis value, but the source formats the message only after
`axis += arr.ndim`, so for a 1-d array and axis `-2` the error carries `-1`,
not `-2`. -/
theorem claim_C4_counterexample :
    nanstd ⟨[1], [.val 0]⟩ (some (-2)) 0 = .error (.invalidAxis (-1))
    ∧ BnError.invalidAxis (-1) ≠ BnError.invalidAxis (-2) :=
  ⟨rfl, by decide⟩

/-- C4 (amended): a negative axis has `ndim` added; if the normalized axis is
outside `[0, ndim)` an `InvalidAxis` error is raised, carrying the
*normalized* axis value (equal to the original only for non-negative axes),
before any data is copied (the heap is untouched); `axis = ndim` and
`axis = -ndim - 1` raise `InvalidAxis` (the latter carrying `-1`), while
`axis = -1` is normalized to `ndim - 1` and accepted. -/
theorem claim_C4_amended (arr : Arr) (ax ddof : ℤ) (hd : ddof = 0 ∨ ddof = 1) :
    (((if ax < 0 then ax + (ndim arr : ℤ) else ax) < 0 ∨
       (ndim arr : ℤ) ≤ (if ax < 0 then ax + (ndim arr : ℤ) else ax)) →
      nanstd arr (some ax) ddof
        = .error (.invalidAxis (if ax < 0 then ax + (ndim arr : ℤ) else ax))
      ∧ nanvar arr (some ax) ddof
        = .error (.invalidAxis (if ax < 0 then ax + (ndim arr : ℤ) else ax))
      ∧ ∀ (h : Heap) (xid : ℕ),
          nanstd_st h xid arr.shape (some ax) ddof
            = (h, .error (.invalidAxis (if ax < 0 then ax + (ndim arr : ℤ) else ax))))
    ∧ (0 ≤ (if ax < 0 then ax + (ndim arr : ℤ) else ax) →
       (if ax < 0 then ax + (ndim arr : ℤ) else ax) < (ndim arr : ℤ) →
       nanstd arr (some ax) ddof
         = .ok (scipy_nanstd arr
             (some (if ax < 0 then ax + (ndim arr : ℤ) else ax)) (ddof == 0)))
    ∧ nanstd arr (some (ndim arr : ℤ)) ddof = .error (.invalidAxis (ndim arr : ℤ))
    ∧ nanstd arr (some (-(ndim arr : ℤ) - 1)) ddof = .error (.invalidAxis (-1))
    ∧ (1 ≤ ndim arr →
       nanstd arr (some (-1)) ddof
         = .ok (scipy_nanstd arr (some ((ndim arr : ℤ) - 1)) (ddof == 0))) := by
  refine ⟨?_, ?_, ?_, ?_, ?_⟩
  · intro hbad
    refine ⟨?_, ?_, ?_⟩
    · rw [nanstd_some_eq arr ax ddof hd, if_pos hbad]
    · unfold nanvar
      rw [nanstd_some_eq arr ax ddof hd, if_pos hbad]
      rfl
    · intro h xid
      unfold nanstd_st
      rw [if_pos hd]
      dsimp only
      simp only [ndim] at hbad ⊢
      rw [if_pos hbad]
  · intro h0 h1
    rw [nanstd_some_eq arr ax ddof hd, if_neg (by omega)]
  · rw [nanstd_some_eq arr (ndim arr : ℤ) ddof hd]
    have hin : (if (ndim arr : ℤ) < 0 then (ndim arr : ℤ) + (ndim arr : ℤ)
        else (ndim arr : ℤ)) = (ndim arr : ℤ) := if_neg (by omega)
    rw [hin, if_pos (by omega)]
  · rw [nanstd_some_eq arr (-(ndim arr : ℤ) - 1) ddof hd]
    have hin : (if (-(ndim arr : ℤ) - 1) < 0 then (-(ndim arr : ℤ) - 1) + (ndim arr : ℤ)
        else (-(ndim arr : ℤ) - 1)) = (-1 : ℤ) := by
      rw [if_pos (by omega)]
      ring
    rw [hin, if_pos (by omega)]
  · intro hnd
    rw [nanstd_some_eq arr (-1) ddof hd]
    have hin : (if (-1 : ℤ) < 0 then (-1 : ℤ) + (ndim arr : ℤ) else (-1 : ℤ))
        = (ndim arr : ℤ) - 1 := by
      rw [if_pos (by omega)]
      ring
    have hnd' : (1 : ℤ) ≤ (ndim arr : ℤ) := by exact_mod_cast hnd
    rw [hin, if_neg (by omega)]

/-- C4 witness: the amended claim evaluated at a 1-d array with axis `5`
(rejected, carrying `5`) and axis `-1` (accepted as axis `0`). -/
theorem claim_C4_witness :
    nanstd ⟨[1], [.val 0]⟩ (some 5) 0 = .error (.invalidAxis 5)
    ∧ nanstd ⟨[1], [.val 0]⟩ (some (-1)) 0
        = .ok (scipy_nanstd ⟨[1], [.val 0]⟩ (some ((ndim ⟨[1], [.val 0]⟩ : ℤ) - 1))
            ((0 : ℤ) == 0)) :=
  ⟨((claim_C4_amended ⟨[1], [.val 0]⟩ 5 0 (Or.inl rfl)).1 (by decide)).1,
   (claim_C4_amended ⟨[1], [.val 0]⟩ 5 0 (Or.inl rfl)).2.2.2.2 (by decide)⟩

/-- C5 counterexample: the claim quotes the message
"NaNs require ddof 0 or 1", but the source raises
`ValueError("With NaNs ddof must be 0 or 1.")`; for `ddof = 2` the error
carries the latter message, which differs from the quoted one. -/
theorem claim_C5_counterexample :
    nanstd ⟨[1], [.val 0]⟩ none 2 = .error (.invalidDDoF ddofMsg)
    ∧ ddofMsg ≠ "NaNs require ddof 0 or 1" :=
  ⟨rfl, by decide⟩

/-- C5 (amended): for every ddof other than 0 and 1, `nanstd` and `nanvar`
fail with `InvalidDDoF` carrying the message
"With NaNs ddof must be 0 or 1.", raised eagerly before any computation or
copy (the heap is untouched); `ddof = 0` selects the biased correction and
`ddof = 1` the unbiased one, and on a clean slice of `n` finite values the
biased path divides the sum of squared deviations by `n` and the unbiased
path by `n - 1`. -/
theorem claim_C5_amended :
    (∀ (arr : Arr) (axis : Option ℤ) (ddof : ℤ), ddof ≠ 0 → ddof ≠ 1 →
      nanstd arr axis ddof = .error (.invalidDDoF ddofMsg)
      ∧ nanvar arr axis ddof = .error (.invalidDDoF ddofMsg)
      ∧ ∀ (h : Heap) (xid : ℕ) (shape : List ℕ),
          nanstd_st h xid shape axis ddof = (h, .error (.invalidDDoF ddofMsg)))
    ∧ (∀ (arr : Arr) (ax : ℤ), 0 ≤ ax → ax < (ndim arr : ℤ) →
        nanstd arr (some ax) 0 = .ok (scipy_nanstd arr (some ax) true)
        ∧ nanstd arr (some ax) 1 = .ok (scipy_nanstd arr (some ax) false))
    ∧ (∀ (b : Bool) (s : List FP), s.all isVal = true → s ≠ [] →
        scipy_nanstd_slice b s.length s
          = (if b
             then fsqrt (fdiv (.val (specDevSum s)) (.val ((qvals s).length : ℚ)))
             else fsqrt (fdiv (.val (specDevSum s))
                    (fsub (.val ((qvals s).length : ℚ)) (.val 1))))) := by
  refine ⟨?_, ?_, ?_⟩
  · intro arr axis ddof h0 h1
    have hcond : ¬ (ddof = 0 ∨ ddof = 1) := by tauto
    refine ⟨?_, ?_, ?_⟩
    · unfold nanstd; rw [if_neg hcond]
    · unfold nanvar nanstd; rw [if_neg hcond]; rfl
    · intro h xid shape
      unfold nanstd_st
      rw [if_neg hcond]
  · intro arr ax h0 h1
    constructor
    · have hax : (if ax < 0 then ax + (ndim arr : ℤ) else ax) = ax := if_neg (by omega)
      rw [nanstd_some_eq arr ax 0 (Or.inl rfl), hax, if_neg (by omega)]
      rfl
    · have hax : (if ax < 0 then ax + (ndim arr : ℤ) else ax) = ax := if_neg (by omega)
      rw [nanstd_some_eq arr ax 1 (Or.inr rfl), hax, if_neg (by omega)]
      rfl
  · intro b s hall hne
    have hs := eq_map_val_of_all_isVal hall
    have hl : qvals s ≠ [] := by
      intro hnil
      rw [hnil] at hs
      exact hne (by simpa using hs)
    have h := nanstd_slice_val b (qvals s) hl
    rw [← hs] at h
    -- the remaining occurrences of `qvals s` in the statement of
    -- `nanstd_slice_val` are `specDevSum ((qvals s).map FP.val)` and
    -- `(qvals s).length`; rewrite them back through `hs` as well
    have hlen : (qvals s).length = s.length := by
      conv_rhs => rw [hs]
      simp
    rw [hlen] at h ⊢
    exact h

/-- C5 witness: `ddof = -1` rejected with the exact source message, and the
unbiased divisor `n - 1` on the clean slice `[0, 2]`. -/
theorem claim_C5_witness :
    nanvar ⟨[1], [.val 0]⟩ (some 0) (-1) = .error (.invalidDDoF ddofMsg)
    ∧ scipy_nanstd_slice false ([FP.val 0, FP.val 2].length) [FP.val 0, FP.val 2]
        = fsqrt (fdiv (.val (specDevSum [FP.val 0, FP.val 2]))
            (fsub (.val ((qvals [FP.val 0, FP.val 2]).length : ℚ)) (.val 1))) :=
  ⟨(claim_C5_amended.1 ⟨[1], [.val 0]⟩ (some 0) (-1) (by decide) (by decide)).2.1,
   claim_C5_amended.2.2 false [FP.val 0, FP.val 2] (by decide) (by decide)⟩

/-- C6: an all-NaN slice yields NaN from the mean, std, var and median
per-slice computations (for mean/std/var the NaN arises from `0/0`; for
median it is returned explicitly), and at the top level the whole-array
reductions of an all-NaN array succeed with result NaN — no error is
raised. -/
theorem claim_C6 (s : List FP) (h : s.all isnan = true) :
    scipy_nanmean_slice s.length s = .nan
    ∧ (∀ b, scipy_nanstd_slice b s.length s = .nan)
    ∧ (∀ b, fmul (scipy_nanstd_slice b s.length s)
          (scipy_nanstd_slice b s.length s) = .nan)
    ∧ nanmedian_slice s = .nan
    ∧ nanmean ⟨[s.length], s⟩ none = ⟨[], [.nan]⟩
    ∧ nanstd ⟨[s.length], s⟩ none 0 = .ok ⟨[], [.nan]⟩
    ∧ nanvar ⟨[s.length], s⟩ none 0 = .ok ⟨[], [.nan]⟩
    ∧ nanmedian ⟨[s.length], s⟩ none = ⟨[], [.nan]⟩ := by
  refine ⟨nanmean_slice_all_nan h, fun b => nanstd_slice_all_nan b h, ?_,
    nanmedian_slice_all_nan h, ?_, ?_, ?_, ?_⟩
  · intro b
    rw [nanstd_slice_all_nan b h]
    rfl
  · rw [nanmean_flat, nanmean_slice_all_nan h]
  · rw [nanstd_flat, nanstd_slice_all_nan true h]
  · unfold nanvar
    rw [nanstd_flat, nanstd_slice_all_nan true h]
    rfl
  · rw [nanmedian_flat, nanmedian_slice_all_nan h]

/-- C6 witness: the all-NaN row `[NaN, NaN]`. -/
theorem claim_C6_witness :
    scipy_nanmean_slice ([FP.nan, FP.nan].length) [FP.nan, FP.nan] = FP.nan
    ∧ nanmedian ⟨[([FP.nan, FP.nan] : List FP).length], [FP.nan, FP.nan]⟩ none
        = ⟨[], [FP.nan]⟩ :=
  ⟨(claim_C6 [FP.nan, FP.nan] (by decide)).1,
   (claim_C6 [FP.nan, FP.nan] (by decide)).2.2.2.2.2.2.2⟩

/-- C7: for each reduction, an inexact (floating/complex) input dtype is
returned unchanged, and a non-inexact (integer/boolean) input dtype is
promoted to the default floating dtype `float64` — never an integer type
(`b` covers both the scalar and the array result path of `nanmedian`). -/
theorem claim_C7 :
    ∀ (d : DType) (b : Bool),
      nanmeanD d = (if isInexact d then d else .float64)
      ∧ nanstdD d = (if isInexact d then d else .float64)
      ∧ nanvarD d = (if isInexact d then d else .float64)
      ∧ nanmedianD d b = (if isInexact d then d else .float64) := by
  intro d b
  cases d <;> cases b <;> decide

/-- C8 counterexample: on the 2×2 array `[[1, 5], [3, 7]]`, `nanmedian` with
an unset axis returns the median of all elements (`4.0`, via flattening),
not the per-column medians along axis 0 (`[2.0, 6.0]`), so the claimed
mean/median default-axis asymmetry does not exist. -/
theorem claim_C8_counterexample :
    nanmedian ⟨[2, 2], [.val 1, .val 5, .val 3, .val 7]⟩ none = ⟨[], [.val 4]⟩
    ∧ nanmedian ⟨[2, 2], [.val 1, .val 5, .val 3, .val 7]⟩ (some 0)
        = ⟨[2], [.val 2, .val 6]⟩
    ∧ (⟨[], [.val 4]⟩ : Arr) ≠ ⟨[2], [.val 2, .val 6]⟩ := by
  refine ⟨?_, ?_, ?_⟩
  · rw [nanmedian_whole]
    norm_num [nanmedian_slice, npmedian, sortFP, validList, isnan, fpLE, fleB,
      fdiv, fadd, List.filter]
  · show (⟨reducedShape [2, 2] (resolveNp 0 2),
        (slicesAt ⟨[2, 2], [.val 1, .val 5, .val 3, .val 7]⟩ (resolveNp 0 2)).map
          nanmedian_slice⟩ : Arr) = _
    have hr1 : List.range 1 = [0] := rfl
    have hr2 : List.range 2 = [0, 1] := rfl
    norm_num [slicesAt, outerOf, naOf, innerOf, slicesAlong, sliceAlong,
      resolveNp, reducedShape, hr1, hr2,
      List.flatMap_cons, List.flatMap_nil, List.nil_append, List.append_nil,
      nanmedian_slice, npmedian, sortFP, validList, isnan, fpLE, fleB,
      fdiv, fadd, List.filter]
  · intro hcontra
    have := congrArg Arr.shape hcontra
    simp at this

/-- C8 (amended): an unset axis means whole-array reduction via flattening
for `nanmedian` exactly as for `nanmean`, `nanstd` and `nanvar`: each is
equal to the call on the ravelled array with axis 0 (the axis-0 default in
`scipy_nanmedian`'s signature is never used, since `nanmedian` always
passes its own axis argument through). -/
theorem claim_C8_amended (arr : Arr) :
    nanmedian arr none = nanmedian (ravel arr) (some 0)
    ∧ nanmean arr none = nanmean (ravel arr) (some 0)
    ∧ (∀ ddof, nanstd arr none ddof = nanstd (ravel arr) (some 0) ddof)
    ∧ (∀ ddof, nanvar arr none ddof = nanvar (ravel arr) (some 0) ddof) := by
  have hstd : ∀ ddof : ℤ, nanstd arr none ddof = nanstd (ravel arr) (some 0) ddof := by
    intro ddof
    unfold nanstd
    by_cases hd : ddof = 0 ∨ ddof = 1
    · rw [if_pos hd, if_pos hd]
      rfl
    · rw [if_neg hd, if_neg hd]
  refine ⟨rfl, rfl, hstd, ?_⟩
  intro ddof
  unfold nanvar
  rw [hstd ddof]

/-- C9: no reduction writes the caller's buffer: in the heap model, after
any call to `nanmean`, `nanstd`, `nanvar` or `nanmedian` the caller's buffer
`xid` holds exactly what it held before — every buffer the engine mutates
(the zero-filled array) is a fresh copy. -/
theorem claim_C9 (h : Heap) (xid : ℕ) (shape : List ℕ) (axis : Option ℤ)
    (ddof : ℤ) (hx : xid < h.length) :
    readH (nanmean_st h xid shape axis).1 xid = readH h xid
    ∧ readH (nanstd_st h xid shape axis ddof).1 xid = readH h xid
    ∧ readH (nanvar_st h xid shape axis ddof).1 xid = readH h xid
    ∧ readH (nanmedian_st h xid shape axis).1 xid = readH h xid := by
  have hstd : readH (nanstd_st h xid shape axis ddof).1 xid = readH h xid := by
    unfold nanstd_st
    by_cases hd : ddof = 0 ∨ ddof = 1
    · rw [if_pos hd]
      cases axis with
      | none => exact readH_alloc_write hx
      | some ax0 =>
          dsimp only
          split <;> split <;>
            first
              | rfl
              | exact readH_alloc_write hx
    · rw [if_neg hd]
  refine ⟨readH_alloc_write hx, hstd, hstd, ?_⟩
  unfold nanmedian_st
  dsimp only
  split
  · rfl
  · exact readH_alloc hx

/-- C9 witness: a one-buffer heap, reduced four ways. -/
theorem claim_C9_witness :
    readH (nanmean_st [[FP.val 1]] 0 [1] none).1 0 = readH [[FP.val 1]] 0
    ∧ readH (nanstd_st [[FP.val 1]] 0 [1] none 0).1 0 = readH [[FP.val 1]] 0
    ∧ readH (nanvar_st [[FP.val 1]] 0 [1] none 0).1 0 = readH [[FP.val 1]] 0
    ∧ readH (nanmedian_st [[FP.val 1]] 0 [1] none).1 0 = readH [[FP.val 1]] 0 :=
  claim_C9 [[FP.val 1]] 0 [1] none 0 (by decide)

/-- C10: the ddof check precedes the axis check in `nanstd` (and therefore in
`nanvar`): when both the ddof and the axis are invalid, `InvalidDDoF` is
raised and `InvalidAxis` is never reached. -/
theorem claim_C10 (arr : Arr) (ax ddof : ℤ) (h0 : ddof ≠ 0) (h1 : ddof ≠ 1)
    (hax : (if ax < 0 then ax + (ndim arr : ℤ) else ax) < 0
           ∨ (ndim arr : ℤ) ≤ (if ax < 0 then ax + (ndim arr : ℤ) else ax)) :
    nanstd arr (some ax) ddof = .error (.invalidDDoF ddofMsg)
    ∧ nanvar arr (some ax) ddof = .error (.invalidDDoF ddofMsg) := by
  have hcond : ¬ (ddof = 0 ∨ ddof = 1) := by tauto
  constructor
  · unfold nanstd
    rw [if_neg hcond]
  · unfold nanvar nanstd
    rw [if_neg hcond]
    rfl

/-- C10 witness: ddof 7 and axis 9 are both invalid on a 1-d array; the
ddof error wins. -/
theorem claim_C10_witness :
    nanstd ⟨[1], [.val 0]⟩ (some 9) 7 = .error (.invalidDDoF ddofMsg)
    ∧ nanvar ⟨[1], [.val 0]⟩ (some 9) 7 = .error (.invalidDDoF ddofMsg) :=
  claim_C10 ⟨[1], [.val 0]⟩ 9 7 (by decide) (by decide) (by decide)

end BN
